import Mathlib

/-!
Verification of the topic-monitoring subsystem of the mattermost-mcp
repository. The Python source under `src/mattermost_mcp/monitoring/` is
shallowly embedded below: pure computations become Lean functions, the
stateful pieces (state store, scheduler flag) become explicit state
passing, and the remote collaborators (Mattermost API, Anthropic API)
become oracle parameters supplied by the caller.
-/

namespace MattermostMcp

/-! ## String helpers

Python string operations used by the monitoring code: `str.lower` and the
substring test `needle in hay`. Python's `in` on strings is true for the
empty needle; `isInfixL` mirrors that. -/

/-- Lowercase every character, mirroring Python `str.lower` on the ASCII
inputs the monitoring code deals with. -/
def strLower (s : String) : String :=
  String.mk (s.data.map Char.toLower)

/-- Whether the first list is a leading segment of the second. -/
def isPrefixL : List Char → List Char → Bool
  | [], _ => true
  | _ :: _, [] => false
  | a :: as, b :: bs => a == b && isPrefixL as bs

/-- Whether the first list occurs contiguously inside the second. -/
def isInfixL (n : List Char) : List Char → Bool
  | [] => n.isEmpty
  | c :: t => isPrefixL n (c :: t) || isInfixL n t

/-- Python `needle in hay` on strings. -/
def pyIn (needle hay : String) : Bool :=
  isInfixL needle.toList hay.toList

/-! ## Data model

The fields of the Pydantic models (`models/mattermost.py`) that the
monitoring subsystem reads. -/

/-- The fields of `Post` the monitoring code uses. -/
structure Post where
  id : String
  create_at : Nat
  user_id : String
  message : String
deriving DecidableEq, Repr

/-- The fields of `Channel` the monitoring code uses. -/
structure Channel where
  id : String
  name : String
  display_name : String
  type : String
deriving DecidableEq, Repr

/-- The fields of `User` the monitoring code uses. `roles` is a single
space-separated string, as in the Mattermost API. -/
structure User where
  id : String
  username : String
  roles : String
  is_bot : Bool
deriving DecidableEq, Repr

/-- The user fields cached by `_enrich_posts_with_user_info`. -/
structure UserInfo where
  username : String
  first_name : String
  last_name : String
deriving DecidableEq, Repr

/-- An enriched post dictionary: the post fields plus the optional
`user_info` entry added by `_enrich_posts_with_user_info` (absent when
the profile lookup failed). `Post(**post_dict)` recovers `post`. -/
structure EnrichedPost where
  post : Post
  user_info : Option UserInfo
deriving DecidableEq, Repr

/-- `PostsResponse`: the `posts` dict (post id to post) and the `order`
list of post ids, newest first. -/
structure PostsResponse where
  posts : List (String × Post)
  order : List String
deriving Repr

/-- The fields of `LlmConfig` (`config.py`) the analyzer uses. An unset
key is the empty string, which is falsy in Python. -/
structure LlmConfig where
  api_key : String
  model : String
  max_tokens : Nat
deriving DecidableEq, Repr

/-- The fields of `MonitoringConfig` (`config.py`) that
`TopicMonitor._run_monitoring` reads. -/
structure MonitoringConfig where
  channels : List String
  topics : List String
  message_limit : Nat
  first_run_limit : Nat
  process_existing_on_first_run : Bool
deriving Repr

/-- `AnalysisResult` (`analyzer.py`). -/
structure AnalysisResult where
  channel_id : String
  channel_name : String
  posts : List Post
  relevant_topics : List String
deriving DecidableEq, Repr

/-- `LlmAnalysisResult` (`analyzer.py`): `post_topics` is the dict from
post id to the list of topics matched against it, embedded as an
insertion-ordered association list. -/
structure LlmAnalysisResult where
  relevant_posts : List Post
  relevant_topics : List String
  post_topics : List (String × List String)
deriving DecidableEq, Repr

/-! ## Association lists

Python dicts are embedded as insertion-ordered association lists; the
operations below mirror dict indexing, `.get(k, default)`, `k in d`, and
item assignment. -/

/-- Python `d.get(k, [])`. -/
def lookupD : List (String × List String) → String → List String
  | [], _ => []
  | kv :: rest, k => if kv.1 == k then kv.2 else lookupD rest k

/-- Python `k in d`. -/
def hasKey : List (String × List String) → String → Bool
  | [], _ => false
  | kv :: rest, k => kv.1 == k || hasKey rest k

/-- Python `d[k] = v`: overwrite in place, or append a fresh key. -/
def setKey : List (String × List String) → String → List String → List (String × List String)
  | [], k, v => [(k, v)]
  | kv :: rest, k, v => if kv.1 == k then (k, v) :: rest else kv :: setKey rest k v

/-- Append `x` unless already present: Python
`if x not in xs: xs.append(x)`, and also `s.add(x)` on a set embedded as
a dedup list in insertion order. -/
def addIfAbsent {α : Type} [DecidableEq α] (xs : List α) (x : α) : List α :=
  if xs.contains x then xs else xs ++ [x]

/-- Python
`if pid not in post_topics: post_topics[pid] = []` then
`post_topics[pid].append(topic)`. -/
def appendTopic (m : List (String × List String)) (pid topic : String) :
    List (String × List String) :=
  let m1 := if hasKey m pid then m else m ++ [(pid, [])]
  setKey m1 pid (lookupD m1 pid ++ [topic])

/-! ## Deterministic (fallback) classifier

`MessageAnalyzer._fallback_analysis` (`analyzer.py`, lines 275-308):
for each enriched post in input order and each configured topic in
configured order, a case-insensitive substring test of the topic against
the message body; a hit appends the reconstructed `Post` (once), records
the topic in the matched-topic set, and appends the topic to the post's
per-message topic list. -/

/-- The test `topic.lower() in message` of the fallback loop, where
`message` is the lowercased post body. -/
def topic_matches (topic : String) (p : Post) : Bool :=
  pyIn (strLower topic) (strLower p.message)

/-- The body of the inner `for topic in self._topics` loop for one post. -/
def fallbackTopicStep (p : Post) (acc : LlmAnalysisResult) (topic : String) :
    LlmAnalysisResult :=
  if topic_matches topic p then
    { relevant_posts := addIfAbsent acc.relevant_posts p
      relevant_topics := addIfAbsent acc.relevant_topics topic
      post_topics := appendTopic acc.post_topics p.id topic }
  else acc

/-- The body of the outer `for post_dict in posts` loop. -/
def fallbackPostStep (topics : List String) (acc : LlmAnalysisResult)
    (ep : EnrichedPost) : LlmAnalysisResult :=
  topics.foldl (fallbackTopicStep ep.post) acc

/-- `MessageAnalyzer._fallback_analysis`. -/
def fallback_analysis (topics : List String) (posts : List EnrichedPost) :
    LlmAnalysisResult :=
  posts.foldl (fallbackPostStep topics) ⟨[], [], []⟩

/-! ## Semantic (LLM) classifier

`MessageAnalyzer._analyze_posts_with_llm` (`analyzer.py`, lines 165-273).
The remote Anthropic call and the regex/JSON parse of its text are
abstracted into an oracle describing their joint outcome: an API-level
exception, a response whose text yields no parseable JSON object, or the
parsed `"topics"` dict (topic to list of post ids). Everything after the
parse — the extraction loop and the guard before the call — is embedded
from the source. -/

/-- Outcome of the Anthropic call plus response parsing, supplied as an
oracle. -/
inductive LlmOutcome where
  | apiError
  | unparseable
  | parsed (topicsData : List (String × List String))
deriving Repr

/-- Accumulator of the extraction loop: `relevant_post_ids` (a set),
`relevant_topics` (a set), `post_topics` (a dict). -/
structure ExtractAcc where
  relevant_post_ids : List String
  relevant_topics : List String
  post_topics : List (String × List String)
deriving Repr

/-- The `for topic, post_ids in topics_data.items()` loop of
`_analyze_posts_with_llm` (lines 247-254): a topic with a non-empty id
list is recorded, and each of its ids is added to the relevant-id set
and has the topic appended to its per-post topic list. -/
def extractTopicsStep (acc : ExtractAcc) (td : String × List String) : ExtractAcc :=
  if td.2.isEmpty then acc
  else
    td.2.foldl
      (fun a pid =>
        { relevant_post_ids := addIfAbsent a.relevant_post_ids pid
          relevant_topics := a.relevant_topics
          post_topics := appendTopic a.post_topics pid td.1 })
      { acc with relevant_topics := addIfAbsent acc.relevant_topics td.1 }

/-- Lines 241-269 of `_analyze_posts_with_llm`: extract the result from
the parsed `topics` dict; `relevant_posts` filters the input batch by
membership of the post id in the collected id set. -/
def extractFromTopicsData (posts : List EnrichedPost)
    (topicsData : List (String × List String)) : LlmAnalysisResult :=
  let acc := topicsData.foldl extractTopicsStep ⟨[], [], []⟩
  { relevant_posts :=
      (posts.filter (fun p => acc.relevant_post_ids.contains p.post.id)).map
        (fun p => p.post)
    relevant_topics := acc.relevant_topics
    post_topics := acc.post_topics }

/-- Result of one `_analyze_posts_with_llm` call, paired with the number
of remote Anthropic API calls it made. -/
structure LlmCallOut where
  result : LlmAnalysisResult
  remoteCalls : Nat
deriving Repr

/-- `MessageAnalyzer._analyze_posts_with_llm`: the guard at line 179
(`not self._llm_config or not self._llm_config.api_key or not posts`)
routes to the fallback with no remote call; otherwise one remote call is
made and any API error or parse failure falls back. -/
def analyze_posts_with_llm (cfg : Option LlmConfig) (topics : List String)
    (posts : List EnrichedPost) (outcome : LlmOutcome) : LlmCallOut :=
  match cfg with
  | none => ⟨fallback_analysis topics posts, 0⟩
  | some c =>
    if c.api_key == "" || posts.isEmpty then
      ⟨fallback_analysis topics posts, 0⟩
    else
      match outcome with
      | .apiError => ⟨fallback_analysis topics posts, 1⟩
      | .unparseable => ⟨fallback_analysis topics posts, 1⟩
      | .parsed topicsData => ⟨extractFromTopicsData posts topicsData, 1⟩

/-! ## State store

`StateManager` (`persistence.py`). The in-memory state is the
`processed_posts` dict (channel id to list of post ids), embedded as an
association list; `last_run` plays no part in the claims about marking. -/

/-- The `processed_posts` component of `MonitorState`. -/
abbrev ProcessedPosts := List (String × List String)

/-- `StateManager.get_processed_post_ids`. -/
def get_processed_post_ids (st : ProcessedPosts) (channel_id : String) :
    List String :=
  lookupD st channel_id

/-- `StateManager.is_post_processed`. -/
def is_post_processed (st : ProcessedPosts) (channel_id post_id : String) : Bool :=
  (lookupD st channel_id).contains post_id

/-- `StateManager.mark_post_processed`: ensure the channel key exists,
then append the post id unless already present. -/
def mark_post_processed (st : ProcessedPosts) (channel_id post_id : String) :
    ProcessedPosts :=
  let st1 := if hasKey st channel_id then st else st ++ [(channel_id, [])]
  if is_post_processed st1 channel_id post_id then st1
  else setKey st1 channel_id (lookupD st1 channel_id ++ [post_id])

/-- `StateManager.mark_posts_processed`. -/
def mark_posts_processed (st : ProcessedPosts) (channel_id : String)
    (post_ids : List String) : ProcessedPosts :=
  post_ids.foldl (fun s pid => mark_post_processed s channel_id pid) st

/-! ## Channel analysis

`MessageAnalyzer.analyze_channel` (`analyzer.py`, lines 64-131). The
remote collaborators become parameters: the channel listing, the posts
fetch (a function of the limit actually requested), the per-user profile
lookup used by enrichment, and the LLM outcome oracle. -/

/-- Line 92: `limit = first_run_limit if first_run and first_run_limit
else self._message_limit`; `first_run_limit` is `int | None` and both
`None` and `0` are falsy. -/
def analyze_limit (first_run : Bool) (first_run_limit : Option Nat)
    (message_limit : Nat) : Nat :=
  match first_run_limit with
  | some n => if first_run && n != 0 then n else message_limit
  | none => message_limit

/-- Lines 96-101: posts of the fetch, in `order` order, that exist in
the `posts` dict and are not yet processed for this channel. -/
def unprocessed_posts (st : ProcessedPosts) (channel_id : String)
    (pr : PostsResponse) : List Post :=
  let processed := get_processed_post_ids st channel_id
  pr.order.filterMap (fun pid =>
    match pr.posts.find? (fun kv => kv.1 == pid) with
    | some kv => if processed.contains pid then none else some kv.2
    | none => none)

/-- `_enrich_posts_with_user_info` (lines 133-163): attach the profile
fields when the lookup succeeds, leave the post un-enriched when it
fails; the per-author cache only avoids repeated remote calls and does
not change the result. -/
def enrich_posts (userLookup : String → Option UserInfo) (posts : List Post) :
    List EnrichedPost :=
  posts.map (fun p => ⟨p, userLookup p.user_id⟩)

/-- Result of one `analyze_channel` call: the optional `AnalysisResult`,
the state store afterwards, and whether `save_state` ran. -/
structure AnalyzeChannelOut where
  result : Option AnalysisResult
  state : ProcessedPosts
  saved : Bool
deriving Repr

/-- `MessageAnalyzer.analyze_channel`. Early exits (channel not found,
nothing unprocessed) touch no state; otherwise every unprocessed post is
marked processed and the state is saved, whatever the classifier did. -/
def analyze_channel (cfg : Option LlmConfig) (topics : List String)
    (message_limit : Nat) (channels : List Channel) (channel_name : String)
    (first_run : Bool) (first_run_limit : Option Nat)
    (fetch : Nat → PostsResponse) (userLookup : String → Option UserInfo)
    (outcome : LlmOutcome) (st : ProcessedPosts) : AnalyzeChannelOut :=
  match channels.find? (fun c => c.name == channel_name) with
  | none => ⟨none, st, false⟩
  | some channel =>
    let limit := analyze_limit first_run first_run_limit message_limit
    let pr := fetch limit
    let ups := unprocessed_posts st channel.id pr
    if ups.isEmpty then ⟨none, st, false⟩
    else
      let enriched := enrich_posts userLookup ups
      let ar := analyze_posts_with_llm cfg topics enriched outcome
      let st2 := ups.foldl (fun s p => mark_post_processed s channel.id p.id) st
      if ar.result.relevant_posts.isEmpty then ⟨none, st2, true⟩
      else
        ⟨some ⟨channel.id, channel.name, ar.result.relevant_posts,
               ar.result.relevant_topics⟩, st2, true⟩

/-! ## Orchestrator

`TopicMonitor` (`monitor.py`). -/

/-- Line 171 of `TopicMonitor._run_monitoring`:
`is_first_run = not self._config.process_existing_on_first_run`. The
flag is recomputed from the immutable config on every run; `runIndex`
(0 for the very first run, 1 for the second, ...) is a parameter so that
dependence on which run this is can be stated, and the definition shows
the source has none. -/
def run_monitoring_first_run_flag (config : MonitoringConfig) (runIndex : Nat) :
    Bool :=
  let _ := runIndex
  !config.process_existing_on_first_run

/-- The fetch limit `analyze_channel` ends up using on run `runIndex`,
given the arguments `_run_monitoring` passes it (lines 174-179). -/
def run_monitoring_limit (config : MonitoringConfig) (runIndex : Nat) : Nat :=
  analyze_limit (run_monitoring_first_run_flag config runIndex)
    (some config.first_run_limit) config.message_limit

/-- The test `"system_admin" in u.roles` (monitor.py line 102). -/
def isAdminUser (u : User) : Bool := pyIn "system_admin" u.roles

/-- The test `not u.is_bot and "system_user" in u.roles` (line 106). -/
def isSystemUserNonBot (u : User) : Bool := !u.is_bot && pyIn "system_user" u.roles

/-- The test `not u.is_bot` (line 110). -/
def isNonBot (u : User) : Bool := !u.is_bot

/-- `TopicMonitor._find_target_user` (lines 92-124), with `None`
standing for the `ValueError` raises: first user whose roles string
contains `system_admin`; else first non-bot whose roles contain
`system_user`; else first non-bot; else the first user; none only when
the listing is empty. -/
def find_target_user (users : List User) : Option User :=
  if users.isEmpty then none
  else
    let t := users.find? isAdminUser
    let t := match t with
      | some u => some u
      | none => users.find? isSystemUserNonBot
    let t := match t with
      | some u => some u
      | none => users.find? isNonBot
    match t with
    | some u => some u
    | none => users.head?

/-! ## Scheduler

`MonitoringScheduler._run_callback` (`scheduler.py`, lines 52-66). The
wrapped monitoring callback is abstracted as the trace of effects
(remote calls, classifier calls, state writes) it would perform when
actually run; the guard decides whether that trace happens at all. -/

/-- The scheduler state relevant to the overlap guard. -/
structure SchedulerState where
  task_running : Bool
deriving DecidableEq, Repr

/-- Result of one `_run_callback` invocation: the scheduler state after
it returns and the effects performed during it. -/
structure RunCallbackOut where
  state : SchedulerState
  effects : List String
deriving DecidableEq, Repr

/-- `MonitoringScheduler._run_callback`: when `_task_running` is already
set the invocation only logs and returns — the callback is not run and
nothing is queued; otherwise the flag is set, the callback runs (its
effect trace happens), and the flag is cleared in `finally`. -/
def run_callback (s : SchedulerState) (callbackEffects : List String) :
    RunCallbackOut :=
  if s.task_running then ⟨s, []⟩
  else ⟨⟨false⟩, callbackEffects⟩

/-! ## State persistence to disk

`StateManager.save_state` (`persistence.py`, lines 44-57) writes the
serialized state with `Path.write_text`, which opens the file in mode
`w` — truncating it in place — and then writes the new contents. The
observable contents of the state-file path over the course of one save
are therefore: the old document, the empty file after truncation, the
new document. -/

/-- Observable contents at the state-file path during `save_state`, in
order of time, for a reader polling the path concurrently. -/
def save_state_observables (old serialized : String) : List String :=
  [old, "", serialized]

/-- Modelled from the spec: the observable contents a temp-file-plus-
rename (atomic) save would expose — the old document until the rename,
the new document after it, nothing in between. -/
def atomic_save_observables (old serialized : String) : List String :=
  [old, serialized]

/-! ## Helper lemmas on the association-list embedding of dicts -/

theorem contains_iff_mem {α : Type} [DecidableEq α] {l : List α} {x : α} :
    l.contains x = true ↔ x ∈ l := by
  simp

theorem lookupD_setKey_self (m : List (String × List String)) (k : String)
    (v : List String) : lookupD (setKey m k v) k = v := by
  induction m with
  | nil => simp [setKey, lookupD]
  | cons kv rest ih =>
    by_cases h : kv.1 = k
    · simp [setKey, lookupD, h]
    · simp [setKey, lookupD, h, ih]

theorem lookupD_setKey_ne (m : List (String × List String)) (k k' : String)
    (v : List String) (h : k' ≠ k) : lookupD (setKey m k v) k' = lookupD m k' := by
  induction m with
  | nil =>
    simp [setKey, lookupD]
    intro h'
    exact absurd h'.symm h
  | cons kv rest ih =>
    by_cases hk : kv.1 = k
    · have hne : ¬ (k = k') := fun he => h he.symm
      simp [setKey, lookupD, hk, hne]
    · by_cases hk' : kv.1 = k'
      · simp [setKey, lookupD, hk, hk', h]
      · simp [setKey, lookupD, hk, hk', ih]

theorem lookupD_of_hasKey_false (m : List (String × List String)) (k : String)
    (h : hasKey m k = false) : lookupD m k = [] := by
  induction m with
  | nil => simp [lookupD]
  | cons kv rest ih =>
    simp [hasKey] at h
    simp [lookupD, h.1, ih h.2]

theorem lookupD_append (m l : List (String × List String)) (k : String) :
    lookupD (m ++ l) k = if hasKey m k then lookupD m k else lookupD l k := by
  induction m with
  | nil => simp [lookupD, hasKey]
  | cons kv rest ih =>
    by_cases h : kv.1 = k
    · simp [lookupD, hasKey, h]
    · simp [lookupD, hasKey, h, ih]

/-- The channel's own processed list after `mark_post_processed`:
unchanged when the id was present, otherwise the id is appended. -/
theorem mark_lookup_self (st : ProcessedPosts) (ch pid : String) :
    lookupD (mark_post_processed st ch pid) ch =
      (if pid ∈ lookupD st ch then lookupD st ch
       else lookupD st ch ++ [pid]) := by
  unfold mark_post_processed is_post_processed
  by_cases hk : hasKey st ch
  · by_cases hm : pid ∈ lookupD st ch
    · simp [hk, contains_iff_mem, hm]
    · simp [hk, contains_iff_mem, hm, lookupD_setKey_self]
  · have hk' : hasKey st ch = false := by simpa using hk
    have h0 : lookupD st ch = [] := lookupD_of_hasKey_false st ch hk'
    have happ : lookupD (st ++ [(ch, [])]) ch = [] := by
      rw [lookupD_append]
      simp [hk', lookupD]
    simp [hk', happ, h0, lookupD_setKey_self]

/-- Other channels are untouched by `mark_post_processed`. -/
theorem mark_lookup_ne (st : ProcessedPosts) (ch pid ch' : String)
    (h : ch' ≠ ch) :
    lookupD (mark_post_processed st ch pid) ch' = lookupD st ch' := by
  unfold mark_post_processed is_post_processed
  by_cases hk : hasKey st ch
  · by_cases hm : pid ∈ lookupD st ch
    · simp [hk, contains_iff_mem, hm]
    · simp [hk, contains_iff_mem, hm, lookupD_setKey_ne _ _ _ _ h]
  · have hk' : hasKey st ch = false := by simpa using hk
    have happ : lookupD (st ++ [(ch, [])]) ch' = lookupD st ch' := by
      rw [lookupD_append]
      by_cases hx : hasKey st ch'
      · simp [hx]
      · have hx' : hasKey st ch' = false := by simpa using hx
        have h0 : lookupD st ch' = [] := lookupD_of_hasKey_false st ch' hx'
        simp [hx', lookupD, Ne.symm h, h0]
    have happ2 : lookupD (st ++ [(ch, [])]) ch = [] := by
      rw [lookupD_append]
      simp [hk', lookupD]
    simp only [hk', Bool.false_eq_true, if_false, happ2]
    simp [lookupD_setKey_ne _ _ _ _ h, happ]

/-- Marking an id already processed for its channel is a no-op on the
whole store. -/
theorem mark_eq_of_processed (st : ProcessedPosts) (ch pid : String)
    (h : is_post_processed st ch pid = true) :
    mark_post_processed st ch pid = st := by
  unfold is_post_processed at h
  rw [contains_iff_mem] at h
  have hk : hasKey st ch = true := by
    by_contra hk
    have h0 : lookupD st ch = [] :=
      lookupD_of_hasKey_false st ch (by simpa using hk)
    rw [h0] at h
    simp at h
  unfold mark_post_processed is_post_processed
  simp [hk, contains_iff_mem, h]

theorem mark_processed_self (st : ProcessedPosts) (ch pid : String) :
    is_post_processed (mark_post_processed st ch pid) ch pid = true := by
  unfold is_post_processed
  rw [mark_lookup_self]
  by_cases hm : pid ∈ lookupD st ch
  · simp [hm, contains_iff_mem]
  · simp [hm, contains_iff_mem]

theorem mark_processed_mono (st : ProcessedPosts) (ch pid ch' x : String)
    (h : is_post_processed st ch' x = true) :
    is_post_processed (mark_post_processed st ch pid) ch' x = true := by
  unfold is_post_processed at h ⊢
  rw [contains_iff_mem] at h
  by_cases hch : ch' = ch
  · subst hch
    rw [mark_lookup_self, contains_iff_mem]
    by_cases hm : pid ∈ lookupD st ch'
    · simp [hm, h]
    · simp only [hm, if_false]
      exact List.mem_append_left _ h
  · rw [mark_lookup_ne _ _ _ _ hch, contains_iff_mem]
    exact h

theorem mark_nodup (st : ProcessedPosts) (ch pid : String)
    (h : ∀ c, (lookupD st c).Nodup) :
    ∀ c, (lookupD (mark_post_processed st ch pid) c).Nodup := by
  intro c
  by_cases hc : c = ch
  · subst hc
    rw [mark_lookup_self]
    by_cases hm : pid ∈ lookupD st c
    · simp [hm, h c]
    · simp only [hm, if_false]
      simp [List.nodup_append, h c, hm]
  · rw [mark_lookup_ne _ _ _ _ hc]
    exact h c

theorem foldl_mark_mono (ch : String) (ps : List Post) (st : ProcessedPosts)
    (ch' x : String) (h : is_post_processed st ch' x = true) :
    is_post_processed
      (ps.foldl (fun s q => mark_post_processed s ch q.id) st) ch' x = true := by
  induction ps generalizing st with
  | nil => exact h
  | cons q rest ih =>
    exact ih _ (mark_processed_mono _ _ _ _ _ h)

theorem foldl_mark_processed (ch : String) (ps : List Post) (st : ProcessedPosts)
    (p : Post) (hp : p ∈ ps) :
    is_post_processed
      (ps.foldl (fun s q => mark_post_processed s ch q.id) st) ch p.id = true := by
  induction ps generalizing st with
  | nil => cases hp
  | cons q rest ih =>
    rcases List.mem_cons.mp hp with h | h
    · subst h
      exact foldl_mark_mono ch rest _ ch p.id (mark_processed_self st ch p.id)
    · exact ih _ h

theorem fallback_topics_nil (posts : List EnrichedPost) :
    fallback_analysis [] posts = ⟨[], [], []⟩ := by
  unfold fallback_analysis
  have aux : ∀ (ps : List EnrichedPost) (acc : LlmAnalysisResult),
      ps.foldl (fallbackPostStep []) acc = acc := by
    intro ps
    induction ps with
    | nil => intro acc; rfl
    | cons ep rest ih => intro acc; exact ih acc
  exact aux posts ⟨[], [], []⟩

/-! ## Claim theorems -/

/-- Claim C1 (code bug): `_run_monitoring` recomputes
`is_first_run = not process_existing_on_first_run` from the immutable
config on every invocation and tracks no run count, so with "process
existing on first run" disabled the distinct first-run fetch limit (here
50) is used on every run — including every run after the first — and
the standard per-run limit (here 10) is never used, contradicting the
claim that subsequent runs fetch with the standard limit. -/
theorem C1_first_run_limit_used_on_every_run :
    (∀ runIndex : Nat,
      run_monitoring_limit ⟨["general"], ["ping pong"], 10, 50, false⟩ runIndex = 50) ∧
    (MonitoringConfig.mk ["general"] ["ping pong"] 10 50 false).message_limit = 10 := by
  exact ⟨fun _ => rfl, rfl⟩

/-- Claim C3: an invocation of the scheduler's `_run_callback` while the
task-running flag is set returns at once with an empty effect trace (no
classifier or remote call, no state change) and an unchanged scheduler
state; nothing is queued. -/
theorem C3_overlap_guard_skips_entirely (s : SchedulerState)
    (effects : List String) (h : s.task_running = true) :
    run_callback s effects = ⟨s, []⟩ := by
  simp [run_callback, h]

/-- Witness for C3 at a concrete busy state and non-trivial would-be
effect trace. -/
theorem C3_overlap_guard_skips_entirely_witness :
    run_callback ⟨true⟩ ["classifier call", "create post"] = ⟨⟨true⟩, []⟩ :=
  C3_overlap_guard_skips_entirely ⟨true⟩ ["classifier call", "create post"] rfl

/-- Claim C5: with no API key configured (no LLM config at all, or an
empty `api_key`), `_analyze_posts_with_llm` returns exactly the fallback
(deterministic substring) analysis of the same input — same relevant
posts, topics and per-message topic map — and makes no remote call,
whatever the LLM oracle would have answered. -/
theorem C5_no_api_key_equals_fallback (cfg : Option LlmConfig)
    (topics : List String) (posts : List EnrichedPost) (outcome : LlmOutcome)
    (h : cfg = none ∨ ∃ c, cfg = some c ∧ c.api_key = "") :
    analyze_posts_with_llm cfg topics posts outcome =
      ⟨fallback_analysis topics posts, 0⟩ := by
  rcases h with h | ⟨c, hc, hk⟩
  · subst h
    rfl
  · subst hc
    simp [analyze_posts_with_llm, hk]

/-- Witness for C5 with a keyless config, a non-empty batch, and an LLM
oracle that would have claimed a match. -/
theorem C5_no_api_key_equals_fallback_witness :
    analyze_posts_with_llm (some ⟨"", "claude-sonnet-4-20250514", 1000⟩)
        ["ping pong"] [⟨⟨"id1", 0, "u1", "ping pong club"⟩, none⟩]
        (.parsed [("other", ["id1"])]) =
      ⟨fallback_analysis ["ping pong"] [⟨⟨"id1", 0, "u1", "ping pong club"⟩, none⟩], 0⟩ :=
  C5_no_api_key_equals_fallback _ _ _ _ (Or.inr ⟨_, rfl, rfl⟩)

/-- Claim C8: marking an id already processed for its channel leaves the
whole store unchanged; marking preserves the no-duplicates invariant of
every channel's processed list; and marking only ever adds ids — every
id processed before is still processed after, in every channel. -/
theorem C8_mark_processed_idempotent_monotone (st : ProcessedPosts)
    (ch pid : String) :
    (is_post_processed st ch pid = true → mark_post_processed st ch pid = st) ∧
    ((∀ c, (lookupD st c).Nodup) →
      ∀ c, (lookupD (mark_post_processed st ch pid) c).Nodup) ∧
    (∀ c x, is_post_processed st c x = true →
      is_post_processed (mark_post_processed st ch pid) c x = true) := by
  refine ⟨mark_eq_of_processed st ch pid, mark_nodup st ch pid, ?_⟩
  intro c x h
  exact mark_processed_mono st ch pid c x h

/-- Witness for C8: re-marking the already processed pair leaves the
store literally unchanged, duplicates stay absent, membership persists. -/
theorem C8_mark_processed_idempotent_monotone_witness :
    mark_post_processed [("c1", ["a", "b"])] "c1" "a" = [("c1", ["a", "b"])] :=
  (C8_mark_processed_idempotent_monotone [("c1", ["a", "b"])] "c1" "a").1 (by decide)

/-- The state-file documents used in the C9 counterexample: the contents
before a save and the serialized contents the save writes. -/
def oldStateDoc : String := "\x7b\x22processed_posts\x22: \x7b\x7d\x7d"

/-- The new serialized state document written by the save. -/
def newStateDoc : String :=
  "\x7b\x22processed_posts\x22: \x7b\x22c1\x22: [\x22a\x22]\x7d\x7d"

/-- Claim C9 is false of the code: `save_state` writes with
`Path.write_text`, which truncates the file in place before writing, so
a concurrent reader of the path can observe the intermediate empty
document — an observation that is neither the old nor the new complete
document. -/
theorem C9_counterexample :
    ¬ (∀ obs ∈ save_state_observables oldStateDoc newStateDoc,
        obs = oldStateDoc ∨ obs = newStateDoc) := by
  intro h
  have h0 := h "" (by simp [save_state_observables])
  rcases h0 with h1 | h1 <;> simp [oldStateDoc, newStateDoc] at h1

/-- Claim C9 (amended): `save_state` is not atomic from a reader's
perspective — it truncates and rewrites the state file in place, with no
temporary path and rename, so whenever the old and new documents are
non-empty a concurrent reader can observe an intermediate state (the
empty file) that is neither of them, unlike the atomic write described
by the spec. -/
theorem C9_save_not_atomic (old serialized : String) (h1 : old ≠ "")
    (h2 : serialized ≠ "") :
    (∃ obs ∈ save_state_observables old serialized,
      obs ≠ old ∧ obs ≠ serialized) ∧
    save_state_observables old serialized ≠
      atomic_save_observables old serialized := by
  constructor
  · exact ⟨"", by simp [save_state_observables],
      fun he => h1 he.symm, fun he => h2 he.symm⟩
  · intro he
    simp [save_state_observables, atomic_save_observables] at he

/-- Witness for the amended C9 at the concrete documents. -/
theorem C9_save_not_atomic_witness :
    ∃ obs ∈ save_state_observables oldStateDoc newStateDoc,
      obs ≠ oldStateDoc ∧ obs ≠ newStateDoc :=
  (C9_save_not_atomic oldStateDoc newStateDoc (by decide) (by decide)).1

/-- The enriched post used in the C4 counterexample. -/
def epC4 : EnrichedPost := ⟨⟨"id1", 0, "u1", "hello"⟩, none⟩

/-- Claim C4 is false of the code for the empty-topic-list half: the
guard before the Anthropic call checks only the config, the key and the
batch, not the topic list, so with an API key configured and a non-empty
batch a call with an empty topic list still makes one remote call. -/
theorem C4_counterexample :
    (analyze_posts_with_llm (some ⟨"sk-test", "claude-sonnet-4-20250514", 1000⟩)
        [] [epC4] (.parsed [])).remoteCalls = 1 := by
  rfl

/-- Claim C4 (amended): an empty message batch always yields the empty
result with no remote call; an empty topic list yields the empty result
with no remote call when no API key is configured (with a key and a
non-empty batch, a remote call is still made). -/
theorem C4_empty_inputs (cfg : Option LlmConfig) (topics : List String)
    (posts : List EnrichedPost) (outcome : LlmOutcome) :
    (posts = [] →
      analyze_posts_with_llm cfg topics posts outcome = ⟨⟨[], [], []⟩, 0⟩) ∧
    (topics = [] → (cfg = none ∨ ∃ c, cfg = some c ∧ c.api_key = "") →
      analyze_posts_with_llm cfg topics posts outcome = ⟨⟨[], [], []⟩, 0⟩) := by
  constructor
  · intro hp
    subst hp
    rcases cfg with _ | c
    · rfl
    · simp [analyze_posts_with_llm, fallback_analysis]
  · intro ht hcfg
    subst ht
    rcases hcfg with h | ⟨c, hc, hk⟩
    · subst h
      simp [analyze_posts_with_llm, fallback_topics_nil]
    · subst hc
      simp [analyze_posts_with_llm, hk, fallback_topics_nil]

/-- Witness for the amended C4: an empty batch under a keyed config, and
an empty topic list under a keyless config. -/
theorem C4_empty_inputs_witness :
    analyze_posts_with_llm (some ⟨"sk-test", "claude-sonnet-4-20250514", 1000⟩)
        ["ping pong"] [] (.parsed [("ping pong", ["id1"])]) = ⟨⟨[], [], []⟩, 0⟩ ∧
    analyze_posts_with_llm none [] [epC4] .apiError = ⟨⟨[], [], []⟩, 0⟩ :=
  ⟨(C4_empty_inputs _ _ _ _).1 rfl, (C4_empty_inputs _ _ _ _).2 rfl (Or.inl rfl)⟩

theorem find?_some_ne_nil {α : Type} (p : α → Bool) (l : List α) (u : α)
    (h : l.find? p = some u) : l.isEmpty = false := by
  cases l with
  | nil => simp [List.find?] at h
  | cons a rest => simp

/-- Claim C7: target-user resolution returns no user exactly when the
listing is empty (propagating a start failure), and otherwise selects in
strict preference order the first admin-role user, else the first
non-bot standard-role user, else the first non-bot user, else the first
user in the listing. -/
theorem C7_target_user_resolution (users : List User) :
    (find_target_user users = none ↔ users = []) ∧
    (∀ u, users.find? isAdminUser = some u → find_target_user users = some u) ∧
    (users.find? isAdminUser = none → ∀ u,
      users.find? isSystemUserNonBot = some u → find_target_user users = some u) ∧
    (users.find? isAdminUser = none → users.find? isSystemUserNonBot = none →
      ∀ u, users.find? isNonBot = some u → find_target_user users = some u) ∧
    (users.find? isAdminUser = none → users.find? isSystemUserNonBot = none →
      users.find? isNonBot = none → find_target_user users = users.head?) := by
  refine ⟨?_, ?_, ?_, ?_, ?_⟩
  · constructor
    · intro h
      cases users with
      | nil => rfl
      | cons u rest =>
        exfalso
        unfold find_target_user at h
        simp only [List.isEmpty_cons, Bool.false_eq_true, if_false] at h
        cases h1 : (u :: rest).find? isAdminUser with
        | some t => simp [h1] at h
        | none =>
          cases h2 : (u :: rest).find? isSystemUserNonBot with
          | some t => simp [h1, h2] at h
          | none =>
            cases h3 : (u :: rest).find? isNonBot with
            | some t => simp [h1, h2, h3] at h
            | none => simp [h1, h2, h3] at h
    · intro h
      subst h
      rfl
  · intro u hu
    unfold find_target_user
    simp [find?_some_ne_nil _ _ _ hu, hu]
  · intro h1 u hu
    unfold find_target_user
    simp [find?_some_ne_nil _ _ _ hu, h1, hu]
  · intro h1 h2 u hu
    unfold find_target_user
    simp [find?_some_ne_nil _ _ _ hu, h1, h2, hu]
  · intro h1 h2 h3
    cases users with
    | nil => rfl
    | cons u rest =>
      unfold find_target_user
      simp [h1, h2, h3]

/-- An admin user for the C7 witness. -/
def adminUser : User := ⟨"u1", "root", "system_admin system_user", false⟩

/-- A bot user for the C7 witness. -/
def botUser : User := ⟨"b1", "monitor-bot", "system_user", true⟩

/-- A regular non-bot user for the C7 witness. -/
def memberUser : User := ⟨"u2", "alice", "system_user", false⟩

/-- Witness for C7: with a bot and a regular member listed before the
single admin, the admin is still selected. -/
theorem C7_target_user_resolution_witness :
    find_target_user [botUser, memberUser, adminUser] = some adminUser :=
  (C7_target_user_resolution [botUser, memberUser, adminUser]).2.1 adminUser
    (by decide)

/-- Claim C2: when the channel is found and K fetched messages survive
the already-processed filter, all K ids are marked processed in the
state store and the state is saved, for every classifier configuration
and every LLM oracle outcome (relevant, irrelevant, API failure, parse
failure); the early exits — channel not found, or nothing unprocessed —
leave the store untouched and unsaved. -/
theorem C2_all_filtered_posts_marked_and_saved (cfg : Option LlmConfig)
    (topics : List String) (message_limit : Nat) (channels : List Channel)
    (channel_name : String) (first_run : Bool) (first_run_limit : Option Nat)
    (fetch : Nat → PostsResponse) (userLookup : String → Option UserInfo)
    (outcome : LlmOutcome) (st : ProcessedPosts) :
    (channels.find? (fun c => c.name == channel_name) = none →
      analyze_channel cfg topics message_limit channels channel_name first_run
        first_run_limit fetch userLookup outcome st = ⟨none, st, false⟩) ∧
    (∀ ch, channels.find? (fun c => c.name == channel_name) = some ch →
      (unprocessed_posts st ch.id
          (fetch (analyze_limit first_run first_run_limit message_limit)) = [] →
        analyze_channel cfg topics message_limit channels channel_name first_run
          first_run_limit fetch userLookup outcome st = ⟨none, st, false⟩) ∧
      (unprocessed_posts st ch.id
          (fetch (analyze_limit first_run first_run_limit message_limit)) ≠ [] →
        (analyze_channel cfg topics message_limit channels channel_name first_run
          first_run_limit fetch userLookup outcome st).saved = true ∧
        ∀ p ∈ unprocessed_posts st ch.id
            (fetch (analyze_limit first_run first_run_limit message_limit)),
          is_post_processed
            (analyze_channel cfg topics message_limit channels channel_name
              first_run first_run_limit fetch userLookup outcome st).state
            ch.id p.id = true)) := by
  constructor
  · intro h
    unfold analyze_channel
    rw [h]
  · intro ch hch
    constructor
    · intro hnil
      unfold analyze_channel
      rw [hch]
      simp [hnil, List.isEmpty_nil]
    · intro hne
      unfold analyze_channel
      rw [hch]
      simp only []
      have hempty : (unprocessed_posts st ch.id
          (fetch (analyze_limit first_run first_run_limit message_limit))).isEmpty
            = false := by
        cases hu : unprocessed_posts st ch.id
            (fetch (analyze_limit first_run first_run_limit message_limit)) with
        | nil => exact absurd hu hne
        | cons a l => simp
      rw [hempty]
      simp only [Bool.false_eq_true, if_false]
      constructor
      · by_cases hrel :
          (analyze_posts_with_llm cfg topics
            (enrich_posts userLookup (unprocessed_posts st ch.id
              (fetch (analyze_limit first_run first_run_limit message_limit))))
            outcome).result.relevant_posts.isEmpty
        · simp [hrel]
        · simp [hrel]
      · intro p hp
        by_cases hrel :
          (analyze_posts_with_llm cfg topics
            (enrich_posts userLookup (unprocessed_posts st ch.id
              (fetch (analyze_limit first_run first_run_limit message_limit))))
            outcome).result.relevant_posts.isEmpty
        · simp only [hrel, if_true]
          exact foldl_mark_processed ch.id _ st p hp
        · simp only [hrel, Bool.false_eq_true, if_false]
          exact foldl_mark_processed ch.id _ st p hp

/-- The channel used by the C2 witness. -/
def generalChannel : Channel := ⟨"cid1", "general", "General", "O"⟩

/-- The single fetched post of the C2 witness, with a body no topic
matches. -/
def fetchedPost : Post := ⟨"p1", 1000, "u1", "nothing of interest"⟩

/-- The posts-fetch oracle of the C2 witness. -/
def fetchC2 : Nat → PostsResponse := fun _ => ⟨[("p1", fetchedPost)], ["p1"]⟩

/-- Witness for C2: the classifier errors out (falls back) and finds
nothing relevant, yet the fetched post is marked processed and the
state saved. -/
theorem C2_all_filtered_posts_marked_and_saved_witness :
    (analyze_channel none ["budget"] 10 [generalChannel] "general" false none
      fetchC2 (fun _ => none) .apiError []).saved = true ∧
    is_post_processed
      (analyze_channel none ["budget"] 10 [generalChannel] "general" false none
        fetchC2 (fun _ => none) .apiError []).state "cid1" "p1" = true := by
  have h :=
    ((C2_all_filtered_posts_marked_and_saved none ["budget"] 10 [generalChannel]
        "general" false none fetchC2 (fun _ => none) .apiError []).2
      generalChannel (by decide)).2 (by decide)
  exact ⟨h.1, h.2 fetchedPost (by decide)⟩

theorem mem_addIfAbsent_self {α : Type} [DecidableEq α] (xs : List α) (x : α) :
    x ∈ addIfAbsent xs x := by
  unfold addIfAbsent
  by_cases hc : x ∈ xs
  · simp [contains_iff_mem, hc]
  · simp [contains_iff_mem, hc]

theorem mem_addIfAbsent_of_mem {α : Type} [DecidableEq α] (xs : List α)
    (x y : α) (h : y ∈ xs) : y ∈ addIfAbsent xs x := by
  unfold addIfAbsent
  by_cases hc : x ∈ xs
  · simpa [contains_iff_mem, hc]
  · simp [contains_iff_mem, hc]
    exact Or.inl h

theorem mem_addIfAbsent_elim {α : Type} [DecidableEq α] (xs : List α)
    (x y : α) (h : y ∈ addIfAbsent xs x) : y ∈ xs ∨ y = x := by
  unfold addIfAbsent at h
  by_cases hc : x ∈ xs
  · simp [contains_iff_mem, hc] at h
    exact Or.inl h
  · simp [contains_iff_mem, hc] at h
    exact h

/-- The inner id loop of `extractTopicsStep` never changes the
matched-topic set. -/
theorem extract_inner_relevant_topics (topic : String) (ids : List String)
    (a : ExtractAcc) :
    (ids.foldl
      (fun a pid =>
        { relevant_post_ids := addIfAbsent a.relevant_post_ids pid
          relevant_topics := a.relevant_topics
          post_topics := appendTopic a.post_topics pid topic })
      a).relevant_topics = a.relevant_topics := by
  induction ids generalizing a with
  | nil => rfl
  | cons pid rest ih => exact ih _

theorem extractTopicsStep_relevant_topics (acc : ExtractAcc)
    (td : String × List String) :
    (extractTopicsStep acc td).relevant_topics =
      if td.2.isEmpty then acc.relevant_topics
      else addIfAbsent acc.relevant_topics td.1 := by
  unfold extractTopicsStep
  by_cases h : td.2.isEmpty
  · simp [h]
  · simp only [h, Bool.false_eq_true, if_false]
    exact extract_inner_relevant_topics td.1 td.2 _

theorem extract_fold_topics_mono (topicsData : List (String × List String))
    (acc : ExtractAcc) (x : String) (h : x ∈ acc.relevant_topics) :
    x ∈ (topicsData.foldl extractTopicsStep acc).relevant_topics := by
  induction topicsData generalizing acc with
  | nil => exact h
  | cons td rest ih =>
    refine ih _ ?_
    rw [extractTopicsStep_relevant_topics]
    by_cases he : td.2.isEmpty
    · simpa [he]
    · simp only [he, Bool.false_eq_true, if_false]
      exact mem_addIfAbsent_of_mem _ _ _ h

theorem extract_fold_topics_added (topicsData : List (String × List String))
    (acc : ExtractAcc) (t : String) (ids : List String)
    (hmem : (t, ids) ∈ topicsData) (hne : ids ≠ []) :
    t ∈ (topicsData.foldl extractTopicsStep acc).relevant_topics := by
  induction topicsData generalizing acc with
  | nil => cases hmem
  | cons td rest ih =>
    rcases List.mem_cons.mp hmem with h | h
    · subst h
      refine extract_fold_topics_mono rest _ t ?_
      rw [extractTopicsStep_relevant_topics]
      have he : ids.isEmpty = false := by
        cases ids with
        | nil => exact absurd rfl hne
        | cons a l => simp
      simp only [he, Bool.false_eq_true, if_false]
      exact mem_addIfAbsent_self _ _
    · exact ih _ h

/-- Claim C10: when an API key is configured and the batch is non-empty,
the semantic strategy built from a parsed response only ever outputs
posts that are elements of the input batch — an id in the response that
matches no input post contributes no post — while any topic whose id
list in the response is non-empty still enters the matched-topic set. -/
theorem C10_semantic_output_from_input (c : LlmConfig) (topics : List String)
    (posts : List EnrichedPost) (topicsData : List (String × List String))
    (hkey : (c.api_key == "") = false) (hposts : posts.isEmpty = false) :
    (∀ p ∈ (analyze_posts_with_llm (some c) topics posts
        (.parsed topicsData)).result.relevant_posts,
      ∃ ep ∈ posts, ep.post = p) ∧
    (∀ t ids, (t, ids) ∈ topicsData → ids ≠ [] →
      t ∈ (analyze_posts_with_llm (some c) topics posts
        (.parsed topicsData)).result.relevant_topics) := by
  have hred : analyze_posts_with_llm (some c) topics posts (.parsed topicsData) =
      ⟨extractFromTopicsData posts topicsData, 1⟩ := by
    unfold analyze_posts_with_llm
    simp [hkey, hposts]
  rw [hred]
  constructor
  · intro p hp
    unfold extractFromTopicsData at hp
    simp only [List.mem_map, List.mem_filter] at hp
    obtain ⟨ep, ⟨hmem, _⟩, hpost⟩ := hp
    exact ⟨ep, hmem, hpost⟩
  · intro t ids hmem hne
    unfold extractFromTopicsData
    exact extract_fold_topics_added topicsData _ t ids hmem hne

/-- Witness for C10: the response names one known id and one unknown id
under distinct topics; the unknown id yields no post but its topic is
still matched. -/
theorem C10_semantic_output_from_input_witness :
    (∀ p ∈ (analyze_posts_with_llm
        (some ⟨"sk-test", "claude-sonnet-4-20250514", 1000⟩) ["a", "b"]
        [⟨⟨"p1", 0, "u1", "m1"⟩, none⟩]
        (.parsed [("a", ["p1"]), ("b", ["ghost"])])).result.relevant_posts,
      ∃ ep ∈ [(⟨⟨"p1", 0, "u1", "m1"⟩, none⟩ : EnrichedPost)], ep.post = p) ∧
    "b" ∈ (analyze_posts_with_llm
        (some ⟨"sk-test", "claude-sonnet-4-20250514", 1000⟩) ["a", "b"]
        [⟨⟨"p1", 0, "u1", "m1"⟩, none⟩]
        (.parsed [("a", ["p1"]), ("b", ["ghost"])])).result.relevant_topics := by
  have h := C10_semantic_output_from_input
    ⟨"sk-test", "claude-sonnet-4-20250514", 1000⟩ ["a", "b"]
    [⟨⟨"p1", 0, "u1", "m1"⟩, none⟩] [("a", ["p1"]), ("b", ["ghost"])]
    (by decide) (by decide)
  exact ⟨h.1, h.2 "b" ["ghost"] (by decide) (by decide)⟩

theorem addIfAbsent_eq_of_mem {α : Type} [DecidableEq α] (xs : List α) (x : α)
    (h : x ∈ xs) : addIfAbsent xs x = xs := by
  unfold addIfAbsent
  simp [contains_iff_mem, h]

theorem addIfAbsent_eq_of_not_mem {α : Type} [DecidableEq α] (xs : List α)
    (x : α) (h : x ∉ xs) : addIfAbsent xs x = xs ++ [x] := by
  unfold addIfAbsent
  simp [contains_iff_mem, h]

theorem addIfAbsent_nodup {α : Type} [DecidableEq α] (xs : List α) (x : α)
    (h : xs.Nodup) : (addIfAbsent xs x).Nodup := by
  by_cases hm : x ∈ xs
  · rw [addIfAbsent_eq_of_mem _ _ hm]
    exact h
  · rw [addIfAbsent_eq_of_not_mem _ _ hm]
    simp [List.nodup_append, h, hm]

theorem ftStep_rp (p : Post) (acc : LlmAnalysisResult) (t : String) :
    (fallbackTopicStep p acc t).relevant_posts =
      if topic_matches t p then addIfAbsent acc.relevant_posts p
      else acc.relevant_posts := by
  by_cases h : topic_matches t p
  · simp [fallbackTopicStep, h]
  · simp [fallbackTopicStep, h]

theorem ftStep_rt (p : Post) (acc : LlmAnalysisResult) (t : String) :
    (fallbackTopicStep p acc t).relevant_topics =
      if topic_matches t p then addIfAbsent acc.relevant_topics t
      else acc.relevant_topics := by
  by_cases h : topic_matches t p
  · simp [fallbackTopicStep, h]
  · simp [fallbackTopicStep, h]

theorem ftStep_pt (p : Post) (acc : LlmAnalysisResult) (t : String) :
    (fallbackTopicStep p acc t).post_topics =
      if topic_matches t p then appendTopic acc.post_topics p.id t
      else acc.post_topics := by
  by_cases h : topic_matches t p
  · simp [fallbackTopicStep, h]
  · simp [fallbackTopicStep, h]

/-- Inner topic loop: posts already collected stay collected. -/
theorem inner_rp_mono (p : Post) (topics : List String)
    (acc : LlmAnalysisResult) (x : Post) (h : x ∈ acc.relevant_posts) :
    x ∈ (topics.foldl (fallbackTopicStep p) acc).relevant_posts := by
  induction topics generalizing acc with
  | nil => exact h
  | cons t rest ih =>
    refine ih _ ?_
    rw [ftStep_rp]
    by_cases hm : topic_matches t p
    · simp only [hm, if_true]
      exact mem_addIfAbsent_of_mem _ _ _ h
    · simpa [hm]

/-- Inner topic loop: a post matching some topic gets collected. -/
theorem inner_rp_added (p : Post) (topics : List String)
    (acc : LlmAnalysisResult) (t : String) (ht : t ∈ topics)
    (hm : topic_matches t p = true) :
    p ∈ (topics.foldl (fallbackTopicStep p) acc).relevant_posts := by
  induction topics generalizing acc with
  | nil => cases ht
  | cons t0 rest ih =>
    by_cases hm0 : topic_matches t0 p
    · refine inner_rp_mono p rest _ p ?_
      rw [ftStep_rp]
      simp only [hm0, if_true]
      exact mem_addIfAbsent_self _ _
    · rcases List.mem_cons.mp ht with h | h
      · subst h
        exact absurd hm hm0
      · exact ih _ h

/-- Inner topic loop: a collected post was already collected or is the
current post with some matching topic. -/
theorem inner_rp_elim (p : Post) (topics : List String)
    (acc : LlmAnalysisResult) (x : Post)
    (h : x ∈ (topics.foldl (fallbackTopicStep p) acc).relevant_posts) :
    x ∈ acc.relevant_posts ∨
      (x = p ∧ ∃ t ∈ topics, topic_matches t p = true) := by
  induction topics generalizing acc with
  | nil => exact Or.inl h
  | cons t0 rest ih =>
    rcases ih _ h with h1 | h1
    · rw [ftStep_rp] at h1
      by_cases hm0 : topic_matches t0 p
      · simp only [hm0, if_true] at h1
        rcases mem_addIfAbsent_elim _ _ _ h1 with h2 | h2
        · exact Or.inl h2
        · exact Or.inr ⟨h2, t0, List.mem_cons_self t0 rest, hm0⟩
      · simp only [hm0, Bool.false_eq_true, if_false] at h1
        exact Or.inl h1
    · exact Or.inr ⟨h1.1, h1.2.choose,
        List.mem_cons_of_mem t0 h1.2.choose_spec.1, h1.2.choose_spec.2⟩

/-- Inner topic loop: the collected-post list only ever changes by
appending the current post once. -/
theorem inner_rp_of_mem (p : Post) (topics : List String)
    (acc : LlmAnalysisResult) (h : p ∈ acc.relevant_posts) :
    (topics.foldl (fallbackTopicStep p) acc).relevant_posts =
      acc.relevant_posts := by
  induction topics generalizing acc with
  | nil => rfl
  | cons t0 rest ih =>
    rw [List.foldl_cons]
    have hstep : (fallbackTopicStep p acc t0).relevant_posts =
        acc.relevant_posts := by
      rw [ftStep_rp]
      by_cases hm0 : topic_matches t0 p
      · simp only [hm0, if_true]
        exact addIfAbsent_eq_of_mem _ _ h
      · simp [hm0]
    rw [ih (fallbackTopicStep p acc t0) (by rw [hstep]; exact h), hstep]

theorem inner_rp_shape (p : Post) (topics : List String)
    (acc : LlmAnalysisResult) :
    (topics.foldl (fallbackTopicStep p) acc).relevant_posts =
        acc.relevant_posts ∨
    (topics.foldl (fallbackTopicStep p) acc).relevant_posts =
        acc.relevant_posts ++ [p] := by
  by_cases hm : p ∈ acc.relevant_posts
  · exact Or.inl (inner_rp_of_mem p topics acc hm)
  · induction topics generalizing acc with
    | nil => exact Or.inl rfl
    | cons t0 rest ih =>
      rw [List.foldl_cons]
      by_cases hm0 : topic_matches t0 p
      · have hstep : (fallbackTopicStep p acc t0).relevant_posts =
            acc.relevant_posts ++ [p] := by
          rw [ftStep_rp]
          simp only [hm0, if_true]
          exact addIfAbsent_eq_of_not_mem _ _ hm
        have hp : p ∈ (fallbackTopicStep p acc t0).relevant_posts := by
          rw [hstep]
          exact List.mem_append_right _ (List.mem_singleton.mpr rfl)
        refine Or.inr ?_
        rw [inner_rp_of_mem p rest _ hp, hstep]
      · have hstep : (fallbackTopicStep p acc t0).relevant_posts =
            acc.relevant_posts := by
          rw [ftStep_rp]
          simp [hm0]
        rcases ih (fallbackTopicStep p acc t0) (by rw [hstep]; exact hm)
          with h1 | h1
        · exact Or.inl (by rw [h1, hstep])
        · exact Or.inr (by rw [h1, hstep])

/-- Inner topic loop: Nodup of the collected list is preserved. -/
theorem inner_rp_nodup (p : Post) (topics : List String)
    (acc : LlmAnalysisResult) (h : acc.relevant_posts.Nodup) :
    (topics.foldl (fallbackTopicStep p) acc).relevant_posts.Nodup := by
  rcases inner_rp_shape p topics acc with h1 | h1
  · rw [h1]
    exact h
  · rw [h1]
    by_cases hm : p ∈ acc.relevant_posts
    · rw [inner_rp_of_mem p topics acc hm] at h1
      have := congrArg List.length h1
      simp at this
    · simp [List.nodup_append, h, hm]

/-- Outer post loop: posts already collected stay collected. -/
theorem outer_rp_mono (topics : List String) (posts : List EnrichedPost)
    (acc : LlmAnalysisResult) (x : Post) (h : x ∈ acc.relevant_posts) :
    x ∈ (posts.foldl (fallbackPostStep topics) acc).relevant_posts := by
  induction posts generalizing acc with
  | nil => exact h
  | cons ep rest ih =>
    exact ih _ (inner_rp_mono ep.post topics acc x h)

/-- Outer post loop: a batch post matching some topic is collected. -/
theorem outer_rp_added (topics : List String) (posts : List EnrichedPost)
    (acc : LlmAnalysisResult) (ep : EnrichedPost) (hep : ep ∈ posts)
    (t : String) (ht : t ∈ topics) (hm : topic_matches t ep.post = true) :
    ep.post ∈ (posts.foldl (fallbackPostStep topics) acc).relevant_posts := by
  induction posts generalizing acc with
  | nil => cases hep
  | cons ep0 rest ih =>
    rcases List.mem_cons.mp hep with h | h
    · subst h
      exact outer_rp_mono topics rest _ ep.post
        (inner_rp_added ep.post topics acc t ht hm)
    · exact ih _ h

/-- Outer post loop: a collected post was already collected or comes
from the batch with some matching topic. -/
theorem outer_rp_elim (topics : List String) (posts : List EnrichedPost)
    (acc : LlmAnalysisResult) (x : Post)
    (h : x ∈ (posts.foldl (fallbackPostStep topics) acc).relevant_posts) :
    x ∈ acc.relevant_posts ∨
      ((∃ ep ∈ posts, ep.post = x) ∧ ∃ t ∈ topics, topic_matches t x = true) := by
  induction posts generalizing acc with
  | nil => exact Or.inl h
  | cons ep0 rest ih =>
    rcases ih _ h with h1 | h1
    · rcases inner_rp_elim ep0.post topics acc x h1 with h2 | h2
      · exact Or.inl h2
      · refine Or.inr ⟨⟨ep0, List.mem_cons_self ep0 rest, h2.1.symm⟩, ?_⟩
        rw [h2.1]
        exact h2.2
    · exact Or.inr ⟨⟨h1.1.choose, List.mem_cons_of_mem ep0 h1.1.choose_spec.1,
        h1.1.choose_spec.2⟩, h1.2⟩

/-- Outer post loop: the collected list grows by a subsequence of the
batch posts, in batch order. -/
theorem outer_rp_shape (topics : List String) (posts : List EnrichedPost)
    (acc : LlmAnalysisResult) :
    ∃ extra, (posts.foldl (fallbackPostStep topics) acc).relevant_posts =
        acc.relevant_posts ++ extra ∧
      List.Sublist extra (posts.map (fun ep => ep.post)) := by
  induction posts generalizing acc with
  | nil => exact ⟨[], by simp, List.nil_sublist _⟩
  | cons ep0 rest ih =>
    rw [List.foldl_cons]
    rcases ih (fallbackPostStep topics acc ep0) with ⟨extra, heq, hsub⟩
    rcases inner_rp_shape ep0.post topics acc with h1 | h1
    · refine ⟨extra, ?_, ?_⟩
      · rw [heq]
        unfold fallbackPostStep
        rw [h1]
      · exact hsub.trans (List.sublist_cons_self _ _)
    · refine ⟨ep0.post :: extra, ?_, ?_⟩
      · rw [heq]
        unfold fallbackPostStep
        rw [h1, List.append_assoc]
        rfl
      · simpa using List.Sublist.cons₂ ep0.post hsub

/-- Outer post loop: Nodup of the collected list is preserved. -/
theorem outer_rp_nodup (topics : List String) (posts : List EnrichedPost)
    (acc : LlmAnalysisResult) (h : acc.relevant_posts.Nodup) :
    (posts.foldl (fallbackPostStep topics) acc).relevant_posts.Nodup := by
  induction posts generalizing acc with
  | nil => exact h
  | cons ep0 rest ih =>
    exact ih _ (inner_rp_nodup ep0.post topics acc h)

/-! Per-message topic lists under `appendTopic`. -/

theorem appendTopic_lookup_self (m : List (String × List String))
    (pid t : String) :
    lookupD (appendTopic m pid t) pid = lookupD m pid ++ [t] := by
  unfold appendTopic
  by_cases hk : hasKey m pid
  · simp only [hk, if_true]
    rw [lookupD_setKey_self]
  · have hk' : hasKey m pid = false := by simpa using hk
    have h0 : lookupD m pid = [] := lookupD_of_hasKey_false m pid hk'
    have happ : lookupD (m ++ [(pid, [])]) pid = [] := by
      rw [lookupD_append]
      simp [hk', lookupD]
    simp only [hk', Bool.false_eq_true, if_false]
    rw [lookupD_setKey_self, happ, h0]

theorem appendTopic_lookup_ne (m : List (String × List String))
    (pid t k : String) (h : k ≠ pid) :
    lookupD (appendTopic m pid t) k = lookupD m k := by
  unfold appendTopic
  by_cases hk : hasKey m pid
  · simp only [hk, if_true]
    rw [lookupD_setKey_ne _ _ _ _ h]
  · have hk' : hasKey m pid = false := by simpa using hk
    have happ : lookupD (m ++ [(pid, [])]) k = lookupD m k := by
      rw [lookupD_append]
      by_cases hx : hasKey m k
      · simp [hx]
      · have hx' : hasKey m k = false := by simpa using hx
        have h0 : lookupD m k = [] := lookupD_of_hasKey_false m k hx'
        simp [hx', lookupD, Ne.symm h, h0]
    simp only [hk', Bool.false_eq_true, if_false]
    rw [lookupD_setKey_ne _ _ _ _ h, happ]

theorem appendTopic_lookup_mono (m : List (String × List String))
    (pid t k x : String) (h : x ∈ lookupD m k) :
    x ∈ lookupD (appendTopic m pid t) k := by
  by_cases hk : k = pid
  · subst hk
    rw [appendTopic_lookup_self]
    exact List.mem_append_left _ h
  · rw [appendTopic_lookup_ne _ _ _ _ hk]
    exact h

/-- Inner topic loop: per-message topic entries persist. -/
theorem inner_pt_mono (p : Post) (topics : List String)
    (acc : LlmAnalysisResult) (k x : String) (h : x ∈ lookupD acc.post_topics k) :
    x ∈ lookupD (topics.foldl (fallbackTopicStep p) acc).post_topics k := by
  induction topics generalizing acc with
  | nil => exact h
  | cons t0 rest ih =>
    refine ih _ ?_
    rw [ftStep_pt]
    by_cases hm0 : topic_matches t0 p
    · simp only [hm0, if_true]
      exact appendTopic_lookup_mono _ _ _ _ _ h
    · simpa [hm0]

/-- Inner topic loop: every matching topic lands in the post's topic
list. -/
theorem inner_pt_added (p : Post) (topics : List String)
    (acc : LlmAnalysisResult) (t : String) (ht : t ∈ topics)
    (hm : topic_matches t p = true) :
    t ∈ lookupD (topics.foldl (fallbackTopicStep p) acc).post_topics p.id := by
  induction topics generalizing acc with
  | nil => cases ht
  | cons t0 rest ih =>
    rcases List.mem_cons.mp ht with h | h
    · subst h
      refine inner_pt_mono p rest _ p.id t ?_
      rw [ftStep_pt]
      simp only [hm, if_true]
      rw [appendTopic_lookup_self]
      exact List.mem_append_right _ (List.mem_singleton.mpr rfl)
    · exact ih _ h

/-- Outer post loop: per-message topic entries persist. -/
theorem outer_pt_mono (topics : List String) (posts : List EnrichedPost)
    (acc : LlmAnalysisResult) (k x : String) (h : x ∈ lookupD acc.post_topics k) :
    x ∈ lookupD (posts.foldl (fallbackPostStep topics) acc).post_topics k := by
  induction posts generalizing acc with
  | nil => exact h
  | cons ep0 rest ih =>
    exact ih _ (inner_pt_mono ep0.post topics acc k x h)

/-- Outer post loop: every (post, matching topic) pair is recorded. -/
theorem outer_pt_added (topics : List String) (posts : List EnrichedPost)
    (acc : LlmAnalysisResult) (ep : EnrichedPost) (hep : ep ∈ posts)
    (t : String) (ht : t ∈ topics) (hm : topic_matches t ep.post = true) :
    t ∈ lookupD (posts.foldl (fallbackPostStep topics) acc).post_topics
      ep.post.id := by
  induction posts generalizing acc with
  | nil => cases hep
  | cons ep0 rest ih =>
    rcases List.mem_cons.mp hep with h | h
    · subst h
      exact outer_pt_mono topics rest _ ep.post.id t
        (inner_pt_added ep.post topics acc t ht hm)
    · exact ih _ h

/-- Claim C6: the deterministic fallback strategy marks a message
relevant iff some configured topic is a case-insensitive substring of
its body; the relevant list is a subsequence of the input batch (order
preserved) without duplicates; every matching topic is appended to the
message's per-id topic list (so a doubly matched message appears once
with both topics); and on topics `["ping pong"]` with the two concrete
messages of the claim, exactly the first message is relevant, matched to
`"ping pong"`. -/
theorem C6_fallback_classifier_semantics (topics : List String)
    (posts : List EnrichedPost) :
    (∀ p, p ∈ (fallback_analysis topics posts).relevant_posts ↔
      ((∃ ep ∈ posts, ep.post = p) ∧ ∃ t ∈ topics, topic_matches t p = true)) ∧
    List.Sublist (fallback_analysis topics posts).relevant_posts
      (posts.map (fun ep => ep.post)) ∧
    (fallback_analysis topics posts).relevant_posts.Nodup ∧
    (∀ ep ∈ posts, ∀ t ∈ topics, topic_matches t ep.post = true →
      t ∈ lookupD (fallback_analysis topics posts).post_topics ep.post.id) ∧
    fallback_analysis ["ping pong"]
        [⟨⟨"m1", 10, "u1", "let\x27s play ping pong"⟩, none⟩,
         ⟨⟨"m2", 20, "u2", "unrelated text"⟩, none⟩] =
      ⟨[⟨"m1", 10, "u1", "let\x27s play ping pong"⟩], ["ping pong"],
       [("m1", ["ping pong"])]⟩ := by
  refine ⟨?_, ?_, ?_, ?_, by decide⟩
  · intro p
    constructor
    · intro h
      rcases outer_rp_elim topics posts ⟨[], [], []⟩ p h with h1 | h1
      · cases h1
      · exact h1
    · rintro ⟨⟨ep, hep, hpost⟩, t, ht, hm⟩
      have hadd := outer_rp_added topics posts ⟨[], [], []⟩ ep hep t ht
        (by rw [hpost]; exact hm)
      rw [hpost] at hadd
      exact hadd
  · rcases outer_rp_shape topics posts ⟨[], [], []⟩ with ⟨extra, heq, hsub⟩
    unfold fallback_analysis
    rw [heq]
    simpa using hsub
  · exact outer_rp_nodup topics posts ⟨[], [], []⟩ List.nodup_nil
  · intro ep hep t ht hm
    exact outer_pt_added topics posts ⟨[], [], []⟩ ep hep t ht hm

/-- Witness for C6: the doubly qualified iff instantiated at the first
concrete message, which is relevant because topic `"ping pong"` is a
case-insensitive substring of its body. -/
theorem C6_fallback_classifier_semantics_witness :
    (⟨"m1", 10, "u1", "let\x27s play ping pong"⟩ : Post) ∈
      (fallback_analysis ["ping pong"]
        [⟨⟨"m1", 10, "u1", "let\x27s play ping pong"⟩, none⟩,
         ⟨⟨"m2", 20, "u2", "unrelated text"⟩, none⟩]).relevant_posts :=
  ((C6_fallback_classifier_semantics ["ping pong"]
      [⟨⟨"m1", 10, "u1", "let\x27s play ping pong"⟩, none⟩,
       ⟨⟨"m2", 20, "u2", "unrelated text"⟩, none⟩]).1 _).mpr
    ⟨⟨⟨⟨"m1", 10, "u1", "let\x27s play ping pong"⟩, none⟩, by decide, rfl⟩,
     "ping pong", by decide, by decide⟩

end MattermostMcp
